import Mathlib

/-!
Verification development for the weekly stock-recommendation engine
(`services/stock.py`, `services/recommendation.py`, `services/ashare.py`).

Python floats are embedded as rationals (`ℚ`), Python strings as Lean
`String` with the Python string builtins re-implemented structurally over
the underlying character list, and the external collaborators (symbol
lookup, quote providers, extraction service, persistence) as explicit
function parameters, mirroring the dependency-injection reading of the
code.  `None`-able numeric fields become `Option ℚ`; a missing
`market`/`stock_code` field is the empty string, matching Python's
truthiness tests on `stock.get(...)`.
-/

namespace Weekly

/-! ### Python string builtins, re-implemented structurally -/

/-- Python `str.upper()` over the character list (ASCII-faithful). -/
def pyUpper (s : String) : String := ⟨s.data.map Char.toUpper⟩

/-- Python `str.lower()` over the character list (ASCII-faithful). -/
def pyLower (s : String) : String := ⟨s.data.map Char.toLower⟩

/-- Python `str.startswith(p)`. -/
def pyStartsWith (s p : String) : Bool := p.data.isPrefixOf s.data

/-- Replace every occurrence of a (non-empty) pattern with `r`, walking the
character list left to right.  Structural recursion on a fuel argument
(instantiated with the list length, which bounds the number of steps) so
the kernel can evaluate it. -/
def replaceFuel (pat r : List Char) : ℕ → List Char → List Char
  | 0, l => l
  | _ + 1, [] => []
  | fuel + 1, c :: cs =>
    if pat ≠ [] ∧ pat.isPrefixOf (c :: cs) then
      r ++ replaceFuel pat r fuel ((c :: cs).drop pat.length)
    else
      c :: replaceFuel pat r fuel cs

/-- Python `s.replace(pat, r)`. -/
def pyReplace (s pat r : String) : String :=
  ⟨replaceFuel pat.data r.data s.data.length s.data⟩

/-- Python regex `^\d{6}$` on a name (`re.match(r'^\d{6}$', s)`). -/
def isSixDigits (s : String) : Bool := s.data.length == 6 && s.data.all Char.isDigit

/-- Python regex `^\d{5}$` on a code. -/
def isFiveDigits (s : String) : Bool := s.data.length == 5 && s.data.all Char.isDigit

/-- Python `str.strip()` (whitespace on both ends). -/
def pyStrip (s : String) : String :=
  ⟨((s.data.dropWhile Char.isWhitespace).reverse.dropWhile Char.isWhitespace).reverse⟩

/-- Python `str.lstrip(chars)` for an explicit character set. -/
def pyLStrip (s : String) (chars : List Char) : String :=
  ⟨s.data.dropWhile (fun c => chars.contains c)⟩

/-- Python `str.split()` with no argument: split on whitespace runs,
dropping empty pieces. -/
def pySplitWs (s : String) : List String :=
  ((s.data.splitOnP Char.isWhitespace).filter (· ≠ [])).map (fun l => ⟨l⟩)

/-! ### Python `round` (banker's rounding) on rationals -/

/-- Round to the nearest integer, ties to even — the idealisation of
Python's `round` on our rational embedding of floats. -/
def roundHalfEven (q : ℚ) : ℤ :=
  let f : ℤ := ⌊q⌋
  let r : ℚ := q - f
  if r < 1/2 then f
  else if 1/2 < r then f + 1
  else if f % 2 = 0 then f else f + 1

/-- Python `round(q, d)`: round to `d` decimal places, ties to even. -/
def roundTo (d : ℕ) (q : ℚ) : ℚ := (roundHalfEven (q * 10 ^ d) : ℚ) / 10 ^ d

/-! ### Stable sorting

Python's `sorted`/`list.sort` is a stable sort; with `reverse=True` it
keeps elements with equal keys in their original relative order.  We
embed it as a structurally recursive stable insertion sort: `lt y x`
reads "`y` must come strictly before `x`"; an element being inserted
walks past exactly the elements that must strictly precede it, so
elements neither of which must precede the other keep their input
order. -/

def sInsert (lt : α → α → Bool) (x : α) : List α → List α
  | [] => [x]
  | y :: ys => if lt y x then y :: sInsert lt x ys else x :: y :: ys

def sSort (lt : α → α → Bool) : List α → List α
  | [] => []
  | x :: xs => sInsert lt x (sSort lt xs)

/-! ### `services/stock.py` — identity resolution -/

/-- Result record of `search_stock`: `{'market': …, 'code': …, 'name': …}`.
On the six-digit path the code stores `'name': None`, embedded as
`none`. -/
structure Resolved where
  market : String
  code : String
  name : Option String
deriving DecidableEq, Repr

/-- One parsed row of the Sina suggest response (a row with more than four
comma-separated parts): `parts[0]`–`parts[3]`. -/
structure Cand where
  name : String
  market_type : String
  code : String
  code_full : String
deriving DecidableEq, Repr

/-- `_get_market_from_code` (stock.py lines 93–101): prefix rules with a
final `return 'SZ'` fallback. -/
def get_market_from_code (code : String) : String :=
  if pyStartsWith code "60" || pyStartsWith code "68" then "SH"
  else if pyStartsWith code "00" || pyStartsWith code "30" then "SZ"
  else if pyStartsWith code "8" || pyStartsWith code "4" || pyStartsWith code "9" then "BJ"
  else "SZ"

/-- The candidate-scanning loop of `search_stock` (stock.py lines 63–86):
first Hong-Kong rule (`market_type == '31'` and five-digit code), then the
A-share rule (six-digit code whose composite field yields a market in
`{SH, SZ, BJ}` after stripping the code and upcasing); otherwise continue
to the next candidate, and `None` when no candidate matches. -/
def scanCands : List Cand → Option Resolved
  | [] => none
  | c :: rest =>
    if c.market_type = "31" ∧ isFiveDigits c.code then
      some ⟨"HK", c.code, some c.name⟩
    else if isSixDigits c.code ∧
        pyUpper (pyReplace c.code_full c.code "") ∈ (["SH", "SZ", "BJ"] : List String) then
      some ⟨pyUpper (pyReplace c.code_full c.code ""), c.code, some c.name⟩
    else scanCands rest

/-- `search_stock` (stock.py lines 15–90), instrumented with the number of
provider (network) calls made.  The symbol-lookup collaborator is an
injected function from the queried name to `none` (non-200 status, regex
mismatch, empty payload, or a raised exception — all degrade to `None`)
or the parsed candidate rows. -/
def searchStockT (provider : String → Option (List Cand)) (stock_name : String) :
    Option Resolved × ℕ :=
  if isSixDigits stock_name then
    (some ⟨pyLower (get_market_from_code stock_name), stock_name, none⟩, 0)
  else
    match provider stock_name with
    | none => (none, 1)
    | some cands => (scanCands cands, 1)

/-- `search_stock`, result only. -/
def search_stock (provider : String → Option (List Cand)) (stock_name : String) :
    Option Resolved :=
  (searchStockT provider stock_name).1

/-! ### `services/recommendation.py` — data model and ordered dicts -/

/-- One row of a week's `stocks` list.  A missing `market`/`stock_code`
is the empty string (Python tests them with truthiness); `change_pct`
and the prices are `None`-able floats. -/
structure StockRec where
  stock_name : String
  market : String
  stock_code : String
  recommenders : List String
  open_price : Option ℚ
  close_price : Option ℚ
  change_pct : Option ℚ
  status : String
deriving DecidableEq, Repr

/-- Membership of a key in a Python dict, embedded as an
insertion-ordered association list. -/
def memAssoc (k : String) : List (String × β) → Bool
  | [] => false
  | (k', _) :: rest => k' == k || memAssoc k rest

/-- In-place value update of a Python dict entry (assignment to an
existing key keeps its position). -/
def updAssoc (k : String) (upd : β → β) : List (String × β) → List (String × β)
  | [] => []
  | (k', v) :: rest => if k' = k then (k', upd v) :: rest else (k', v) :: updAssoc k upd rest

/-- Deterministic stand-in for `list(set(old) | set(new))`: the code only
ever relies on the *set* of recommenders, whose Python list order is
unspecified hash order; we keep first-seen order. -/
def mergeRecommenders (old new : List String) : List String :=
  old ++ new.filter (fun r => ¬ old.contains r)

/-! #### `resolve_stock_codes` (recommendation.py lines 181–279) -/

/-- Phase A step (lines 189–207): group by literal `stock_name`, skipping
empty names; on a duplicate, union the recommenders and let a later
entry's `(market, stock_code)` pair (when both present) overwrite the
earlier one, taking that entry's status along. -/
def phaseAStep (m : List (String × StockRec)) (stock : StockRec) : List (String × StockRec) :=
  if stock.stock_name = "" then m
  else if memAssoc stock.stock_name m then
    updAssoc stock.stock_name (fun existing =>
      let merged := { existing with
        recommenders := mergeRecommenders existing.recommenders stock.recommenders }
      if stock.market ≠ "" ∧ stock.stock_code ≠ "" then
        { merged with market := stock.market, stock_code := stock.stock_code,
                      status := stock.status }
      else merged) m
  else m ++ [(stock.stock_name, stock)]

/-- Phase A: the `name_map` dict read back as a list. -/
def phaseA (stocks : List StockRec) : List StockRec :=
  (stocks.foldl phaseAStep []).map Prod.snd

/-- Per-stock resolution (lines 218–239): entries that already carry both
`market` and `stock_code` are skipped; otherwise the injected
`search_stock` result fills market/code, sets status `resolved`, and a
non-empty returned canonical name different from the literal one
overwrites `stock_name`. -/
def resolveStep (search : String → Option Resolved) (stock : StockRec) : StockRec :=
  if stock.market ≠ "" ∧ stock.stock_code ≠ "" then stock
  else
    match search stock.stock_name with
    | some r =>
      let s := { stock with market := r.market, stock_code := r.code, status := "resolved" }
      match r.name with
      | some n => if n ≠ "" ∧ n ≠ stock.stock_name then { s with stock_name := n } else s
      | none => s
    | none => stock

/-- Phase B key (lines 244–253): the exact string `f"{market}_{code}"`,
or `f"_no_code_{stock_name}"` when either part is missing. -/
def phaseBKey (s : StockRec) : String :=
  if s.market = "" ∨ s.stock_code = "" then "_no_code_" ++ s.stock_name
  else s.market ++ "_" ++ s.stock_code

/-- Phase B step (lines 241–262): group on the exact `phaseBKey` string;
entries with a code union recommender sets, code-less entries overwrite
the slot (`code_map[key] = stock`). -/
def phaseBStep (m : List (String × StockRec)) (stock : StockRec) : List (String × StockRec) :=
  let key := phaseBKey stock
  if stock.market = "" ∨ stock.stock_code = "" then
    if memAssoc key m then updAssoc key (fun _ => stock) m else m ++ [(key, stock)]
  else if memAssoc key m then
    updAssoc key (fun existing =>
      { existing with
        recommenders := mergeRecommenders existing.recommenders stock.recommenders }) m
  else m ++ [(key, stock)]

/-- `resolve_stock_codes`, from the week's stored stock list to the merged
stock list it saves back (phase A by name, per-stock resolution, phase B
by canonical identity). -/
def resolve_stock_codes (search : String → Option Resolved) (stocks : List StockRec) :
    List StockRec :=
  ((( phaseA stocks).map (resolveStep search)).foldl phaseBStep []).map Prod.snd

/-! #### `get_ranking` (recommendation.py lines 389–418) -/

/-- Sort key `x.get('change_pct', 0)` (always present in the sorted
group). -/
def pctKey (s : StockRec) : ℚ := s.change_pct.getD 0

/-- `with_pct`: stocks whose `change_pct` is not `None`, in input order. -/
def withPct (stocks : List StockRec) : List StockRec :=
  stocks.filter (fun s => s.change_pct.isSome)

/-- `without_pct`: stocks with `change_pct is None`, in input order. -/
def withoutPct (stocks : List StockRec) : List StockRec :=
  stocks.filter (fun s => s.change_pct.isNone)

/-- `sorted(with_pct, key=…, reverse=True)`: stable descending sort. -/
def sortedWithPct (stocks : List StockRec) : List StockRec :=
  sSort (fun y x => decide (pctKey x < pctKey y)) (withPct stocks)

/-- The ordered stock list `get_ranking` returns. -/
def get_ranking_stocks (stocks : List StockRec) : List StockRec :=
  sortedWithPct stocks ++ withoutPct stocks

/-! #### `calculate_recommender_stats` (recommendation.py lines 422–552) -/

/-- One analyst's collected data: the `weeks` dict, keyed by
`(year, week)` in insertion order, each value the list of `change_pct`
of the analyst's picks that week. -/
abbrev WeekBuckets : Type := List ((ℤ × ℤ) × List ℚ)

/-- Everything the per-analyst block of `calculate_recommender_stats`
computes (lines 455–527). -/
structure AnalystStats where
  net_value : ℚ
  total_return : ℚ
  avg_return : ℚ
  win_rate : ℚ
  positive_weeks : ℕ
  negative_weeks : ℕ
  total_weeks : ℕ
  total_count : ℕ
  win_count : ℕ
  win_rate_score : ℚ
  return_score : ℚ
  avg_score : ℚ
  weeks_score : ℚ
  count_score : ℚ
  weeks_bonus : ℚ
  confidence : ℚ
  raw_score : ℚ
  score : ℚ
  rating : String
deriving DecidableEq, Repr

/-- Strict lexicographic order on `(year, week)` keys, as Python compares
tuples. -/
def weekKeyLt (a b : ℤ × ℤ) : Bool := a.1 < b.1 || (a.1 == b.1 && a.2 < b.2)

/-- `sorted(data['weeks'].keys())` read off as the dict entries sorted
ascending by key. -/
def sortWeeks (wd : WeekBuckets) : WeekBuckets :=
  sSort (fun y x => weekKeyLt y.1 x.1) wd

/-- Mean of a week's bucket (`sum(week_returns) / len(week_returns)`). -/
def listAvg (rs : List ℚ) : ℚ := rs.sum / rs.length

/-- `weekly_returns`: per-week average returns, weeks ascending
(lines 463–466). -/
def weeklyReturns (wd : WeekBuckets) : List ℚ := (sortWeeks wd).map (fun e => listAvg e.2)

/-- `net_value`: starts at `1.0`, then `net_value *= (1 + week_avg / 100)`
per week in ascending order (lines 456, 467). -/
def netValue (wd : WeekBuckets) : ℚ :=
  (weeklyReturns wd).foldl (fun nv a => nv * (1 + a / 100)) 1

/-- `total_count` (line 477). -/
def totalCount (wd : WeekBuckets) : ℕ := ((sortWeeks wd).map (fun e => e.2.length)).sum

/-- `win_count` (line 478): picks with strictly positive return. -/
def winCount (wd : WeekBuckets) : ℕ :=
  ((sortWeeks wd).map (fun e => (e.2.filter (fun r => 0 < r)).length)).sum

/-- `total_return = (net_value - 1) * 100` (line 480). -/
def totalReturn (wd : WeekBuckets) : ℚ := (netValue wd - 1) * 100

/-- `avg_return` (line 481). -/
def avgReturn (wd : WeekBuckets) : ℚ :=
  if weeklyReturns wd ≠ [] then (weeklyReturns wd).sum / (weeklyReturns wd).length else 0

/-- `win_rate` (line 482). -/
def winRate (wd : WeekBuckets) : ℚ :=
  if 0 < totalCount wd then (winCount wd : ℚ) / totalCount wd * 100 else 0

/-- `positive_weeks` (line 483). -/
def positiveWeeks (wd : WeekBuckets) : ℕ :=
  ((weeklyReturns wd).filter (fun r => 0 < r)).length

/-- `negative_weeks` (line 484). -/
def negativeWeeks (wd : WeekBuckets) : ℕ :=
  ((weeklyReturns wd).filter (fun r => r < 0)).length

/-- `total_weeks` (line 485). -/
def totalWeeks (wd : WeekBuckets) : ℕ := (weeklyReturns wd).length

/-- `win_rate_score` (line 488). -/
def winRateScore (wd : WeekBuckets) : ℚ := min (winRate wd) 100

/-- `return_score` (line 489). -/
def returnScore (wd : WeekBuckets) : ℚ := min (max (totalReturn wd + 50) 0) 100

/-- `avg_score` (line 490). -/
def avgScore (wd : WeekBuckets) : ℚ := min (max ((avgReturn wd + 5) * 10) 0) 100

/-- `weeks_score` (line 491). -/
def weeksScore (wd : WeekBuckets) : ℚ :=
  if 3 ≤ totalWeeks wd then min ((totalWeeks wd : ℚ) / 6 * 100) 100
  else (totalWeeks wd : ℚ) / 3 * 50

/-- `count_score` (line 492). -/
def countScore (wd : WeekBuckets) : ℚ :=
  if 5 ≤ totalCount wd then min ((totalCount wd : ℚ) / 15 * 100) 100
  else (totalCount wd : ℚ) / 5 * 50

/-- `weeks_bonus` (lines 494–503): trend bonus, branching on all-positive,
all-negative, more-negative-than-positive, and the remaining case; `0`
below four weeks. -/
def weeksBonus (wd : WeekBuckets) : ℚ :=
  if 4 ≤ totalWeeks wd then
    if positiveWeeks wd = totalWeeks wd then min (75 + ((totalWeeks wd : ℚ) - 4) * 5) 100
    else if negativeWeeks wd = totalWeeks wd then
      max (-50 - ((totalWeeks wd : ℚ) - 4) * 5) (-100)
    else if positiveWeeks wd < negativeWeeks wd then
      -(((negativeWeeks wd : ℚ) / totalWeeks wd) * 50)
    else ((positiveWeeks wd : ℚ) / totalWeeks wd) * 50
  else 0

/-- `confidence = min(total_weeks / 2, 1.0)` (line 505). -/
def confidence (wd : WeekBuckets) : ℚ := min ((totalWeeks wd : ℚ) / 2) 1

/-- `raw_score` (lines 506–513). -/
def rawScore (wd : WeekBuckets) : ℚ :=
  winRateScore wd * (22/100) + returnScore wd * (23/100) + avgScore wd * (15/100) +
  weeksScore wd * (10/100) + countScore wd * (10/100) + weeksBonus wd * (20/100)

/-- `score = round(50 + (raw_score - 50) * confidence, 1)` (line 514). -/
def score (wd : WeekBuckets) : ℚ := roundTo 1 (50 + (rawScore wd - 50) * confidence wd)

/-- The letter rating (lines 516–525). -/
def rating (wd : WeekBuckets) : String :=
  if 80 ≤ score wd then "S" else if 65 ≤ score wd then "A" else if 45 ≤ score wd then "B"
  else if 25 ≤ score wd then "C" else "D"

/-- The per-analyst statistics block (lines 455–527) assembled. -/
def analystStats (wd : WeekBuckets) : AnalystStats :=
  { net_value := netValue wd, total_return := totalReturn wd, avg_return := avgReturn wd,
    win_rate := winRate wd, positive_weeks := positiveWeeks wd,
    negative_weeks := negativeWeeks wd, total_weeks := totalWeeks wd,
    total_count := totalCount wd, win_count := winCount wd,
    win_rate_score := winRateScore wd, return_score := returnScore wd,
    avg_score := avgScore wd, weeks_score := weeksScore wd, count_score := countScore wd,
    weeks_bonus := weeksBonus wd, confidence := confidence wd, raw_score := rawScore wd,
    score := score wd, rating := rating wd }

/-- Append one pick's `change_pct` into the analyst's bucket for week
`wk` (creating the bucket on first sight, in insertion order). -/
def addReturn (wk : ℤ × ℤ) (c : ℚ) : WeekBuckets → WeekBuckets
  | [] => [(wk, [c])]
  | (k, rs) :: rest => if k = wk then (k, rs ++ [c]) :: rest else (k, rs) :: addReturn wk c rest

/-- The collection loops of `calculate_recommender_stats`
(lines 429–450): iterate weeks, stocks and recommenders in order, skip
stocks with `change_pct is None`, and build the `recommender_data` dict
in first-appearance order. -/
def collectData (weeks : List ((ℤ × ℤ) × List StockRec)) : List (String × WeekBuckets) :=
  weeks.foldl (fun m w =>
    w.2.foldl (fun m stock =>
      match stock.change_pct with
      | none => m
      | some c =>
        stock.recommenders.foldl (fun m rname =>
          if memAssoc rname m then updAssoc rname (addReturn w.1 c) m
          else m ++ [(rname, [(w.1, [c])])]) m) m) []

/-- The analyst records, one per recommender, before the final sort. -/
def statRecords (weeks : List ((ℤ × ℤ) × List StockRec)) : List (String × AnalystStats) :=
  (collectData weeks).map (fun e => (e.1, analystStats e.2))

/-- `calculate_recommender_stats`: the saved list, sorted by
`result.sort(key=lambda x: x['score'], reverse=True)` — Python's stable
sort, with no further key. -/
def calculate_recommender_stats (weeks : List ((ℤ × ℤ) × List StockRec)) :
    List (String × AnalystStats) :=
  sSort (fun y x => decide (x.2.score < y.2.score)) (statRecords weeks)

/-! #### `parse_with_gemini` (recommendation.py lines 29–76, 93–177) -/

/-- One item of the structured extraction payload (`{"name": …,
"stocks": …, "original": …}`). -/
structure RawItem where
  name : String
  stocks : String
  original : String
deriving DecidableEq, Repr

/-- One expanded record (one stock token per record, lines 135–148). -/
structure ParsedItem where
  recommender : String
  stock : String
  original : String
deriving DecidableEq, Repr

/-- The HTTP answer of the extraction service, as `_call_gemini_api`
consumes it: status code, application error code and message, and the
`content` JSON payload (`none` embeds a `json.JSONDecodeError`).  A
`none` at the outer `Option` models the unreachable service
(`requests.post` raising). -/
structure GeminiResponse where
  status : ℕ
  errcode : ℤ
  msg : String
  content : Option (List RawItem)

/-- The expansion loop (lines 135–150): keep items with a non-empty
stripped name and non-empty stocks field, one record per whitespace
token of `stocks`. -/
def expandItems (items : List RawItem) : List ParsedItem :=
  items.foldl (fun acc item =>
    let name := pyStrip item.name
    let original := pyStrip item.original
    if name ≠ "" ∧ item.stocks ≠ "" then
      acc ++ ((pySplitWs item.stocks).filter (fun st => pyStrip st ≠ "")).map
        (fun st => ⟨name, pyStrip st, original⟩)
    else acc) []

/-- `_call_gemini_api` (lines 93–153): raise (`Except.error`) without a
configured token, on an unreachable service, a non-200 status or a
non-zero `errcode`; an unparsable content payload returns `[]`. -/
def call_gemini_api (token : String) (resp : Option GeminiResponse) :
    Except String (List ParsedItem) :=
  if token = "" then .error "未配置GEMINI_API_TOKEN"
  else
    match resp with
    | none => .error "network error"
    | some r =>
      if r.status ≠ 200 then .error "Gemini API错误: status"
      else if r.errcode ≠ 0 then .error ("Gemini API错误: " ++ r.msg)
      else
        match r.content with
        | none => .ok []
        | some items => .ok (expandItems items)

/-- The characters stripped from a message after removing the
recommender-name prefix: `.lstrip(' :：\t')`. -/
def stripMsgChars : List Char := [' ', ':', '：', '\t']

/-- `_merge_recommendations` (lines 155–177): stock → recommender set
(insertion-ordered) plus recommender → first-seen original message with
the recommender's own name and separators stripped from the front. -/
def merge_recommendations (items : List ParsedItem) :
    List (String × List String) × List (String × String) :=
  items.foldl (fun acc item =>
    let recommender := pyStrip item.recommender
    let stock := pyStrip item.stock
    let original := pyStrip item.original
    if recommender ≠ "" ∧ stock ≠ "" then
      let merged :=
        if memAssoc stock acc.1 then
          updAssoc stock (fun rs => if rs.contains recommender then rs else rs ++ [recommender]) acc.1
        else acc.1 ++ [(stock, [recommender])]
      let msgs :=
        if recommender ≠ "" ∧ original ≠ "" ∧ ¬ memAssoc recommender acc.2 then
          let msg :=
            if pyStartsWith original recommender then
              pyLStrip ⟨original.data.drop recommender.data.length⟩ stripMsgChars
            else original
          acc.2 ++ [(recommender, msg)]
        else acc.2
      (merged, msgs)
    else acc) ([], [])

/-- What the snapshot store holds for one `(year, week)`: the stock
rows, the raw source text (empty string = absent) and the
recommender-message map. -/
structure WeekStore where
  stocks : List StockRec
  raw_text : String
  recommender_messages : List (String × String)

/-- `parse_with_gemini` (lines 29–76) as a state transformer on the
snapshot store: fetch the raw text, call the extraction service, merge,
and only on full success upsert the week's snapshot; every failure
returns an error with the store untouched. -/
def parse_with_gemini (token : String) (resp : Option GeminiResponse) (year week : ℤ)
    (db : (ℤ × ℤ) → WeekStore) : Except String Unit × ((ℤ × ℤ) → WeekStore) :=
  let raw := (db (year, week)).raw_text
  if raw = "" then (.error "未找到原始文本", db)
  else
    match call_gemini_api token resp with
    | .error e => (.error e, db)
    | .ok parsed_items =>
      if parsed_items = [] then (.error "Gemini返回空结果，请检查原始文本格式", db)
      else
        let mr := merge_recommendations parsed_items
        let stocks := mr.1.map (fun e =>
          ({ stock_name := e.1, market := "", stock_code := "", recommenders := e.2,
             open_price := none, close_price := none, change_pct := none,
             status := "pending" } : StockRec))
        (.ok (), fun k => if k = (year, week) then ⟨stocks, raw, mr.2⟩ else db k)

/-! ### `services/ashare.py` — price enrichment with provider fallback -/

/-- One daily bar as the quote providers deliver it; dates are embedded
as day numbers, and only the fields `get_kline` consumes (date, open,
close) are kept. -/
structure Bar where
  date : ℤ
  bar_open : ℚ
  bar_close : ℚ
deriving DecidableEq, Repr

/-- The `open/close/change_pct` record `get_kline` produces. -/
structure Kline where
  open_price : ℚ
  close_price : ℚ
  change_pct : ℚ
deriving DecidableEq, Repr

/-- `get_price_day_tx` (ashare.py lines 19–59): the primary (Tencent)
provider; a `none` answer is a raised exception (network, JSON, …), and
an *empty* bar list is converted into a raised exception as well
(lines 41–42). -/
def get_price_day_tx (primary : ℤ → ℕ → Option (List Bar)) (end_date : ℤ) (count : ℕ) :
    Except String (List Bar) :=
  match primary end_date count with
  | none => .error "腾讯日线获取失败"
  | some [] => .error "腾讯接口无数据"
  | some bars => .ok bars

/-- `get_price_sina` (lines 62–99): the secondary (Sina) provider; a
`none` answer raises, an empty list is returned as an empty frame. -/
def get_price_sina (secondary : ℤ → ℕ → Option (List Bar)) (end_date : ℤ) (count : ℕ) :
    Except String (List Bar) :=
  match secondary end_date count with
  | none => .error "新浪数据获取失败"
  | some bars => .ok bars

/-- `get_price` (lines 102–119), instrumented with whether the secondary
provider was consulted: the secondary is tried — with the identical
`end_date`/`count` arguments — exactly when the primary raised. -/
def getPriceT (primary secondary : ℤ → ℕ → Option (List Bar)) (end_date : ℤ) (count : ℕ) :
    Except String (List Bar) × Bool :=
  match get_price_day_tx primary end_date count with
  | .ok bars => (.ok bars, false)
  | .error _ => (get_price_sina secondary end_date count, true)

/-- `get_kline` (lines 122–170), instrumented with whether the secondary
provider was consulted.  The week window `[start_dt, end_dt]` comes from
`get_week_dates`; bars are fetched with `end_date = end_dt, count = 5`,
then restricted to the window; division by zero cannot occur in the
rational embedding (`x / 0 = 0`), and any provider error is caught and
becomes `none`. -/
def getKlineT (primary secondary : ℤ → ℕ → Option (List Bar)) (start_dt end_dt : ℤ) :
    Option Kline × Bool :=
  match getPriceT primary secondary end_dt 5 with
  | (.error _, called) => (none, called)
  | (.ok bars, called) =>
    if bars.isEmpty then (none, called)
    else
      let week_bars := bars.filter (fun b => start_dt ≤ b.date ∧ b.date ≤ end_dt)
      if week_bars.isEmpty then (none, called)
      else
        let o := (week_bars.head?.map Bar.bar_open).getD 0
        let c := (week_bars.getLast?.map Bar.bar_close).getD 0
        (some ⟨o, c, roundTo 2 ((c - o) / o * 100)⟩, called)

/-! ### Concrete instances used in counterexamples and witnesses -/

/-- A symbol-lookup provider that is never consulted successfully. -/
def noProvider : String → Option (List Cand) := fun _ => none

/-- Lookup used for the resolve-twice scenario: two distinct literal
names resolve to two distinct securities that share one canonical
name. -/
def lookupTwin : String → Option Resolved := fun n =>
  if n = "A" then some ⟨"SH", "600000", some "N"⟩
  else if n = "B" then some ⟨"SZ", "000001", some "N"⟩
  else none

/-- Two pending entries with distinct literal names. -/
def twinStocks : List StockRec :=
  [⟨"A", "", "", ["u"], none, none, none, "pending"⟩,
   ⟨"B", "", "", ["v"], none, none, none, "pending"⟩]

/-- A fully resolved two-entry snapshot with pairwise distinct names and
phase-B keys. -/
def resolvedStocks : List StockRec :=
  [⟨"甲", "SH", "600000", ["u"], none, none, some 2, "completed"⟩,
   ⟨"乙", "SZ", "000001", ["v"], none, none, none, "resolved"⟩]

/-- Provider answering the Sina-suggest row for 浦发银行. -/
def pufaProvider : String → Option (List Cand) := fun n =>
  if n = "浦发银行" then some [⟨"浦发银行", "11", "600000", "sh600000"⟩] else none

/-- A snapshot naming the same security once by bare code and once by
name. -/
def pufaStocks : List StockRec :=
  [⟨"600000", "", "", ["u"], none, none, none, "pending"⟩,
   ⟨"浦发银行", "", "", ["v"], none, none, none, "pending"⟩]

/-- One week, one enriched stock, recommended by `a` then `b`. -/
def weeksAB : List ((ℤ × ℤ) × List StockRec) :=
  [((2024, 1), [⟨"S", "sh", "600000", ["a", "b"], none, none, some 5, "completed"⟩])]

/-- The same week and stock, recommenders listed `b` then `a`. -/
def weeksBA : List ((ℤ × ℤ) × List StockRec) :=
  [((2024, 1), [⟨"S", "sh", "600000", ["b", "a"], none, none, some 5, "completed"⟩])]

/-- A primary provider whose only bar (day 0) lies outside the requested
week window. -/
def primOutside : ℤ → ℕ → Option (List Bar) := fun _ _ => some [⟨0, 10, 11⟩]

/-- A primary provider that raises on every request. -/
def primRaise : ℤ → ℕ → Option (List Bar) := fun _ _ => none

/-- A secondary provider holding an in-window bar (day 5). -/
def secInside : ℤ → ℕ → Option (List Bar) := fun _ _ => some [⟨5, 10, 11⟩]

/-- Four weeks, one pick each, all positive. -/
def fourPosWeeks : WeekBuckets :=
  [((2024, 1), [1]), ((2024, 2), [2]), ((2024, 3), [1]), ((2024, 4), [3])]

/-- Five weeks, one pick each, all positive. -/
def fivePosWeeks : WeekBuckets :=
  [((2024, 1), [1]), ((2024, 2), [2]), ((2024, 3), [1]), ((2024, 4), [3]), ((2024, 5), [2])]

/-- Four weeks, one pick each, all negative. -/
def fourNegWeeks : WeekBuckets :=
  [((2024, 1), [-1]), ((2024, 2), [-2]), ((2024, 3), [-1]), ((2024, 4), [-3])]

/-- A two-week history: weekly averages +10 then −10. -/
def plusMinusWeeks : WeekBuckets := [((2024, 1), [10]), ((2024, 2), [-10])]

/-- A snapshot store with one stored raw text and no stocks. -/
def oneRawStore : (ℤ × ℤ) → WeekStore := fun _ => ⟨[], "原始推荐文本", []⟩

/-- Four weeks with more negative than positive averages (not all
negative). -/
def mixedNegWeeks : WeekBuckets :=
  [((2024, 1), [1]), ((2024, 2), [-1]), ((2024, 3), [-2]), ((2024, 4), [-3])]

/-- Four weeks with at least as many positive as negative averages (not
all positive). -/
def mixedPosWeeks : WeekBuckets :=
  [((2024, 1), [1]), ((2024, 2), [2]), ((2024, 3), [-1]), ((2024, 4), [3])]

/-- A one-week history with a single winning pick. -/
def oneWinWeek : WeekBuckets := [((2024, 1), [1])]

/-- An extraction-service answer with a non-success HTTP status. -/
def geminiBad : GeminiResponse := ⟨500, 0, "", none⟩

/-! ### Library lemmas about the stable sort -/

theorem mem_sInsert (lt : α → α → Bool) (x : α) (l : List α) (a : α) :
    a ∈ sInsert lt x l ↔ a = x ∨ a ∈ l := by
  induction l with
  | nil => simp [sInsert]
  | cons y ys ih =>
    simp only [sInsert]
    cases h : lt y x
    · simp only [Bool.false_eq_true, if_false, List.mem_cons]
    · simp only [if_true, List.mem_cons, ih]
      tauto

theorem sInsert_perm (lt : α → α → Bool) (x : α) (l : List α) :
    (sInsert lt x l).Perm (x :: l) := by
  induction l with
  | nil => simp [sInsert]
  | cons y ys ih =>
    simp only [sInsert]
    cases h : lt y x
    · simp
    · simp only [if_true]
      exact (ih.cons y).trans (List.Perm.swap x y ys)

theorem sSort_perm (lt : α → α → Bool) (l : List α) : (sSort lt l).Perm l := by
  induction l with
  | nil => simp [sSort]
  | cons x xs ih => exact (sInsert_perm lt x (sSort lt xs)).trans (ih.cons x)

theorem sInsert_pairwise {R : α → α → Prop} (lt : α → α → Bool)
    (h1 : ∀ a b, lt a b = true → R a b)
    (h2 : ∀ a b, lt b a = false → R a b)
    (htrans : ∀ a b c, R a b → R b c → R a c)
    (x : α) (l : List α) (hl : l.Pairwise R) :
    (sInsert lt x l).Pairwise R := by
  induction l with
  | nil => simp [sInsert]
  | cons y ys ih =>
    rcases List.pairwise_cons.mp hl with ⟨hy, hys⟩
    simp only [sInsert]
    cases h : lt y x
    · simp only [Bool.false_eq_true, if_false, List.pairwise_cons]
      have hxy : R x y := h2 x y h
      refine ⟨fun a ha => ?_, hy, hys⟩
      rcases List.mem_cons.mp ha with rfl | ha
      · exact hxy
      · exact htrans x y a hxy (hy a ha)
    · simp only [if_true, List.pairwise_cons]
      refine ⟨fun a ha => ?_, ih hys⟩
      rcases (mem_sInsert lt x ys a).mp ha with rfl | ha
      · exact h1 _ _ h
      · exact hy a ha

theorem sSort_pairwise {R : α → α → Prop} (lt : α → α → Bool)
    (h1 : ∀ a b, lt a b = true → R a b)
    (h2 : ∀ a b, lt b a = false → R a b)
    (htrans : ∀ a b c, R a b → R b c → R a c)
    (l : List α) : (sSort lt l).Pairwise R := by
  induction l with
  | nil => simp [sSort]
  | cons x xs ih => exact sInsert_pairwise lt h1 h2 htrans x (sSort lt xs) ih

/-- Stability: filtering by a predicate that selects a single tie class
(no selected element must strictly precede another) commutes with the
insertion, so tied elements keep their input order. -/
theorem sInsert_filter_pos (lt : α → α → Bool) (p : α → Bool)
    (hp : ∀ a b, p a = true → p b = true → lt a b = false)
    (x : α) (l : List α) (hx : p x = true) :
    (sInsert lt x l).filter p = x :: l.filter p := by
  induction l with
  | nil => simp [sInsert, hx]
  | cons y ys ih =>
    simp only [sInsert]
    cases h : lt y x
    · simp [List.filter_cons, hx]
    · have hpy : p y = false := by
        cases hpy : p y
        · rfl
        · have := hp y x hpy hx
          rw [this] at h
          exact absurd h (by simp)
      simp [List.filter_cons, hpy, ih]

theorem sInsert_filter_neg (lt : α → α → Bool) (p : α → Bool)
    (x : α) (l : List α) (hx : p x = false) :
    (sInsert lt x l).filter p = l.filter p := by
  induction l with
  | nil => simp [sInsert, hx]
  | cons y ys ih =>
    simp only [sInsert]
    cases h : lt y x
    · simp [List.filter_cons, hx]
    · simp only [if_true, List.filter_cons]
      cases hpy : p y
      · simp [ih]
      · simp [ih]

/-- A stable sort leaves each tie class in input order. -/
theorem sSort_filter (lt : α → α → Bool) (p : α → Bool)
    (hp : ∀ a b, p a = true → p b = true → lt a b = false)
    (l : List α) : (sSort lt l).filter p = l.filter p := by
  induction l with
  | nil => simp [sSort]
  | cons x xs ih =>
    simp only [sSort]
    cases hx : p x
    · rw [sInsert_filter_neg lt p x (sSort lt xs) hx, ih, List.filter_cons]
      simp [hx]
    · rw [sInsert_filter_pos lt p hp x (sSort lt xs) hx, ih, List.filter_cons]
      simp [hx]

/-! ### Claim C1 — six-digit prefix classification -/

/-- C1, counterexample: the claim says every six-digit prefix other than
60/68/00/30 gives BJ, but `_get_market_from_code` gives BJ only for
first characters 8, 4 or 9 and falls back to SZ: the six-digit input
`"100000"` matches none of 60/68/00/30, yet resolves to SZ (lowercased
`sz` in the resolver output), not BJ. -/
theorem C1_counterexample :
    isSixDigits "100000" = true ∧
    pyStartsWith "100000" "60" = false ∧ pyStartsWith "100000" "68" = false ∧
    pyStartsWith "100000" "00" = false ∧ pyStartsWith "100000" "30" = false ∧
    get_market_from_code "100000" = "SZ" ∧
    get_market_from_code "100000" ≠ "BJ" ∧
    search_stock noProvider "100000" = some ⟨"sz", "100000", none⟩ := by
  decide

/-- C1 (amended): for every six-digit input name, `resolve` answers
without consulting the provider (zero network calls), returning the
prefix-classified market lowercased with the name itself as the code;
the prefix rules are 60/68 → SH, else 00/30 → SZ, else a first character
of 8, 4 or 9 → BJ, and every remaining six-digit prefix falls back to
SZ; in particular `"600000"` resolves to `(sh, 600000)` with zero
network calls. -/
theorem C1_six_digit_resolution (p : String → Option (List Cand)) (name : String)
    (h : isSixDigits name = true) :
    (searchStockT p name).2 = 0 ∧
    searchStockT p name = (some ⟨pyLower (get_market_from_code name), name, none⟩, 0) ∧
    ((pyStartsWith name "60" || pyStartsWith name "68") = true →
      get_market_from_code name = "SH") ∧
    ((pyStartsWith name "60" || pyStartsWith name "68") = false →
      (pyStartsWith name "00" || pyStartsWith name "30") = true →
      get_market_from_code name = "SZ") ∧
    ((pyStartsWith name "60" || pyStartsWith name "68") = false →
      (pyStartsWith name "00" || pyStartsWith name "30") = false →
      (pyStartsWith name "8" || pyStartsWith name "4" || pyStartsWith name "9") = true →
      get_market_from_code name = "BJ") ∧
    ((pyStartsWith name "60" || pyStartsWith name "68") = false →
      (pyStartsWith name "00" || pyStartsWith name "30") = false →
      (pyStartsWith name "8" || pyStartsWith name "4" || pyStartsWith name "9") = false →
      get_market_from_code name = "SZ") ∧
    search_stock p "600000" = some ⟨"sh", "600000", none⟩ ∧
    (searchStockT p "600000").2 = 0 := by
  have h6 : isSixDigits "600000" = true := by decide
  refine ⟨?_, ?_, ?_, ?_, ?_, ?_, ?_, ?_⟩
  · simp [searchStockT, h]
  · simp [searchStockT, h]
  · intro h1
    simp [get_market_from_code, h1]
  · intro h1 h2
    simp [get_market_from_code, h1, h2]
  · intro h1 h2 h3
    simp [get_market_from_code, h1, h2, h3]
  · intro h1 h2 h3
    simp [get_market_from_code, h1, h2, h3]
  · simp only [search_stock, searchStockT, h6, if_true]
    decide
  · simp [searchStockT, h6]

/-- C1 witness: the amended statement instantiated at the fallback input
`"654321"` (six digits, none of the listed prefixes). -/
theorem C1_six_digit_resolution_witness :
    isSixDigits "654321" = true ∧
    ((searchStockT noProvider "654321").2 = 0 ∧
      searchStockT noProvider "654321" =
        (some ⟨pyLower (get_market_from_code "654321"), "654321", none⟩, 0) ∧
      ((pyStartsWith "654321" "60" || pyStartsWith "654321" "68") = true →
        get_market_from_code "654321" = "SH") ∧
      ((pyStartsWith "654321" "60" || pyStartsWith "654321" "68") = false →
        (pyStartsWith "654321" "00" || pyStartsWith "654321" "30") = true →
        get_market_from_code "654321" = "SZ") ∧
      ((pyStartsWith "654321" "60" || pyStartsWith "654321" "68") = false →
        (pyStartsWith "654321" "00" || pyStartsWith "654321" "30") = false →
        (pyStartsWith "654321" "8" || pyStartsWith "654321" "4" ||
          pyStartsWith "654321" "9") = true →
        get_market_from_code "654321" = "BJ") ∧
      ((pyStartsWith "654321" "60" || pyStartsWith "654321" "68") = false →
        (pyStartsWith "654321" "00" || pyStartsWith "654321" "30") = false →
        (pyStartsWith "654321" "8" || pyStartsWith "654321" "4" ||
          pyStartsWith "654321" "9") = false →
        get_market_from_code "654321" = "SZ") ∧
      search_stock noProvider "600000" = some ⟨"sh", "600000", none⟩ ∧
      (searchStockT noProvider "600000").2 = 0) :=
  ⟨by decide, C1_six_digit_resolution noProvider "654321" (by decide)⟩

/-! ### Claim C10 — lowercase vs uppercase market strings -/

/-- C10: the six-digit path returns its market lowercased (one of
`sh`/`sz`/`bj`), the provider path only ever returns the uppercase
`HK`/`SH`/`SZ`/`BJ`, and since phase B groups on the exact
`f"{market}_{code}"` string, the two paths do not merge: resolving a
snapshot that names 浦发银行 once by bare code `600000` and once by name
leaves two resolved entries for code `600000` whose markets `sh` and
`SH` differ only in letter case, carried under the distinct phase-B keys
`sh_600000` and `SH_600000`. -/
theorem C10_market_case_mismatch :
    (∀ p name, isSixDigits name = true →
      search_stock p name = some ⟨pyLower (get_market_from_code name), name, none⟩ ∧
      pyLower (get_market_from_code name) ∈ (["sh", "sz", "bj"] : List String)) ∧
    (∀ cands r, scanCands cands = some r →
      r.market ∈ (["HK", "SH", "SZ", "BJ"] : List String)) ∧
    resolve_stock_codes (search_stock pufaProvider) pufaStocks =
      [⟨"600000", "sh", "600000", ["u"], none, none, none, "resolved"⟩,
       ⟨"浦发银行", "SH", "600000", ["v"], none, none, none, "resolved"⟩] ∧
    (resolve_stock_codes (search_stock pufaProvider) pufaStocks).map phaseBKey =
      ["sh_600000", "SH_600000"] ∧
    pyLower "SH" = "sh" ∧ ("sh_600000" : String) ≠ "SH_600000" := by
  refine ⟨?_, ?_, by decide, by decide, by decide, by decide⟩
  · intro p name h
    constructor
    · simp [search_stock, searchStockT, h]
    · unfold get_market_from_code
      split_ifs <;> decide
  · intro cands
    induction cands with
    | nil => intro r h; simp [scanCands] at h
    | cons c rest ih =>
      intro r h
      simp only [scanCands] at h
      split_ifs at h with h1 h2
      · cases h
        simp
      · cases h
        simpa using List.mem_cons_of_mem "HK" h2.2
      · exact ih r h

/-- C10 witness: the six-digit branch at `"600000"` and the provider
branch at the 浦发银行 suggest row. -/
theorem C10_market_case_mismatch_witness :
    (search_stock noProvider "600000" =
        some ⟨pyLower (get_market_from_code "600000"), "600000", none⟩ ∧
      pyLower (get_market_from_code "600000") ∈ (["sh", "sz", "bj"] : List String)) ∧
    (Resolved.mk "SH" "600000" (some "浦发银行")).market ∈
      (["HK", "SH", "SZ", "BJ"] : List String) :=
  ⟨C10_market_case_mismatch.1 noProvider "600000" (by decide),
   C10_market_case_mismatch.2.1 [⟨"浦发银行", "11", "600000", "sh600000"⟩]
     ⟨"SH", "600000", some "浦发银行"⟩ (by decide)⟩

/-! ### Claim C7 — ranking partition, order and stability -/

/-- C7: `get_ranking` partitions the snapshot's stocks so that every
stock with a non-null `change_pct` precedes every stock with a null one;
the first group is sorted with `change_pct` non-increasing, stocks with
equal `change_pct` keeping their original relative order, and the second
group keeps the snapshot's original order unchanged. -/
theorem C7_ranking_partition (stocks : List StockRec) :
    get_ranking_stocks stocks = sortedWithPct stocks ++ withoutPct stocks ∧
    (sortedWithPct stocks).all (fun s => s.change_pct.isSome) = true ∧
    (sortedWithPct stocks).Pairwise (fun p q => pctKey q ≤ pctKey p) ∧
    (∀ v : ℚ, (sortedWithPct stocks).filter (fun s => decide (s.change_pct = some v)) =
      stocks.filter (fun s => decide (s.change_pct = some v))) ∧
    (sortedWithPct stocks).Perm (withPct stocks) ∧
    withoutPct stocks = stocks.filter (fun s => s.change_pct.isNone) := by
  refine ⟨rfl, ?_, ?_, ?_, sSort_perm _ _, rfl⟩
  · rw [List.all_eq_true]
    intro s hs
    have hmem : s ∈ withPct stocks := ((sSort_perm _ _).mem_iff).mp hs
    simpa using List.of_mem_filter hmem
  · apply sSort_pairwise
    · intro a b hab
      exact le_of_lt (of_decide_eq_true hab)
    · intro a b hab
      exact le_of_not_lt (of_decide_eq_false hab)
    · intro a b c h1 h2
      exact le_trans h2 h1
  · intro v
    have hstep : (sortedWithPct stocks).filter (fun s => decide (s.change_pct = some v)) =
        (withPct stocks).filter (fun s => decide (s.change_pct = some v)) := by
      apply sSort_filter
      intro a b ha hb
      have hav : a.change_pct = some v := of_decide_eq_true ha
      have hbv : b.change_pct = some v := of_decide_eq_true hb
      have : pctKey b < pctKey a ↔ False := by
        simp [pctKey, hav, hbv]
      simp [this]
    rw [hstep, withPct, List.filter_filter]
    apply List.filter_congr
    intro s _
    cases hc : s.change_pct
    · simp [hc]
    · simp [hc]

/-! ### Claim C2 — final sort of the analyst records -/

/-- C2, counterexample: the claim requires an explicit, reproducible
tiebreak such that equal analyst data gives equal output order
regardless of incidental iteration order, but the code sorts only by
score with Python's stable sort: two snapshots holding the same stock,
the same week and the same two recommenders — listed in the two
different orders — produce the same analyst records up to permutation,
yet `recomputeAll` returns them in the two different orders. -/
theorem C2_counterexample :
    (statRecords weeksAB).Perm (statRecords weeksBA) ∧
    (calculate_recommender_stats weeksAB).map Prod.fst = ["a", "b"] ∧
    (calculate_recommender_stats weeksBA).map Prod.fst = ["b", "a"] ∧
    (calculate_recommender_stats weeksAB).map Prod.fst ≠
      (calculate_recommender_stats weeksBA).map Prod.fst := by
  have hA : (calculate_recommender_stats weeksAB).map Prod.fst = ["a", "b"] := by
    simp [calculate_recommender_stats, statRecords, collectData, memAssoc, updAssoc,
      addReturn, sSort, sInsert, weeksAB]
  have hB : (calculate_recommender_stats weeksBA).map Prod.fst = ["b", "a"] := by
    simp [calculate_recommender_stats, statRecords, collectData, memAssoc, updAssoc,
      addReturn, sSort, sInsert, weeksBA]
  refine ⟨?_, hA, hB, ?_⟩
  · have h1 : statRecords weeksAB =
        [("a", analystStats [((2024, 1), [5])]), ("b", analystStats [((2024, 1), [5])])] := by
      simp [statRecords, collectData, memAssoc, updAssoc, addReturn, weeksAB]
    have h2 : statRecords weeksBA =
        [("b", analystStats [((2024, 1), [5])]), ("a", analystStats [((2024, 1), [5])])] := by
      simp [statRecords, collectData, memAssoc, updAssoc, addReturn, weeksBA]
    rw [h1, h2]
    exact List.Perm.swap _ _ _
  · rw [hA, hB]
    decide

/-- C2 (amended): `recomputeAll` sorts the final analyst-record list
descending by score with Python's stable sort and no explicit tiebreak:
records with equal scores keep the order in which the analysts were
first encountered while iterating the input, so the output order for
tied scores depends on that incidental iteration order. -/
theorem C2_score_sort_stable (weeks : List ((ℤ × ℤ) × List StockRec)) :
    (calculate_recommender_stats weeks).Pairwise (fun p q => q.2.score ≤ p.2.score) ∧
    (calculate_recommender_stats weeks).Perm (statRecords weeks) ∧
    (∀ v : ℚ,
      (calculate_recommender_stats weeks).filter (fun e => decide (e.2.score = v)) =
      (statRecords weeks).filter (fun e => decide (e.2.score = v))) := by
  refine ⟨?_, sSort_perm _ _, ?_⟩
  · apply sSort_pairwise
    · intro a b hab
      exact le_of_lt (of_decide_eq_true hab)
    · intro a b hab
      exact le_of_not_lt (of_decide_eq_false hab)
    · intro a b c h1 h2
      exact le_trans h2 h1
  · intro v
    apply sSort_filter
    intro a b ha hb
    have hav := of_decide_eq_true ha
    have hbv := of_decide_eq_true hb
    have : b.2.score < a.2.score ↔ False := by
      rw [hav, hbv]
      simp
    simp [this]

/-! ### Claim C4 — compounding net value -/

/-- Folding the per-week compounding update is the product of the weekly
growth factors. -/
theorem foldl_compound_eq_prod (l : List ℚ) (init : ℚ) :
    l.foldl (fun nv a => nv * (1 + a / 100)) init =
      init * (l.map (fun a => 1 + a / 100)).prod := by
  induction l generalizing init with
  | nil => simp
  | cons x xs ih => simp [List.foldl_cons, ih, mul_assoc]

/-- C4: per analyst, with the weeks ordered ascending by `(year, week)`,
`netValue` starts at 1.0 and is multiplied by `(1 + weekAvg/100)` per
week (equivalently, it is the product of the weekly growth factors), and
`totalReturn = (netValue − 1) × 100`; for the two-week history with
weekly averages +10 and −10 the total return is exactly −1, not 0. -/
theorem C4_compounding (wd : WeekBuckets) :
    (analystStats wd).total_return = ((analystStats wd).net_value - 1) * 100 ∧
    (analystStats wd).net_value =
      (weeklyReturns wd).foldl (fun nv a => nv * (1 + a / 100)) 1 ∧
    (analystStats wd).net_value = ((weeklyReturns wd).map (fun a => 1 + a / 100)).prod ∧
    (sortWeeks wd).Perm wd ∧
    ((sortWeeks wd).map Prod.fst).Pairwise
      (fun a b => a.1 < b.1 ∨ (a.1 = b.1 ∧ a.2 ≤ b.2)) ∧
    (analystStats plusMinusWeeks).total_return = -1 ∧ ((-1 : ℚ) ≠ 0) := by
  refine ⟨rfl, rfl, ?_, sSort_perm _ _, ?_, ?_, by norm_num⟩
  · show netValue wd = _
    rw [netValue, foldl_compound_eq_prod, one_mul]
  · rw [List.pairwise_map]
    apply sSort_pairwise
    · intro a b hab
      simp only [weekKeyLt, Bool.or_eq_true, Bool.and_eq_true, decide_eq_true_eq,
        beq_iff_eq] at hab
      rcases hab with h | ⟨h1, h2⟩
      · exact Or.inl h
      · exact Or.inr ⟨h1, le_of_lt h2⟩
    · intro a b hab
      simp only [weekKeyLt, Bool.or_eq_false_iff, Bool.and_eq_false_iff,
        decide_eq_false_iff_not, beq_eq_false_iff_ne] at hab
      omega
    · intro a b c h1 h2
      rcases h1 with h1 | ⟨h1, h1'⟩ <;> rcases h2 with h2 | ⟨h2, h2'⟩ <;> omega
  · norm_num [analystStats, totalReturn, netValue, weeklyReturns, sortWeeks, sSort,
      sInsert, weekKeyLt, listAvg, plusMinusWeeks]

/-! ### Claim C5 — trend bonus branches -/

/-- C5: the trend bonus is 0 below four weeks; from four weeks on, all
weeks positive gives `min(75 + 5·(totalWeeks − 4), 100)`, all weeks
negative gives `max(−50 − 5·(totalWeeks − 4), −100)`, more negative than
positive weeks gives `−(negativeWeeks/totalWeeks)·50`, and the remaining
case gives `(positiveWeeks/totalWeeks)·50`; in particular four
all-positive weeks score 75, five all-positive weeks 80, and four
all-negative weeks −50. -/
theorem C5_trend_bonus (wd : WeekBuckets) :
    ((analystStats wd).total_weeks < 4 → (analystStats wd).weeks_bonus = 0) ∧
    (4 ≤ (analystStats wd).total_weeks →
      (analystStats wd).positive_weeks = (analystStats wd).total_weeks →
      (analystStats wd).weeks_bonus =
        min (75 + (((analystStats wd).total_weeks : ℚ) - 4) * 5) 100) ∧
    (4 ≤ (analystStats wd).total_weeks →
      (analystStats wd).positive_weeks ≠ (analystStats wd).total_weeks →
      (analystStats wd).negative_weeks = (analystStats wd).total_weeks →
      (analystStats wd).weeks_bonus =
        max (-50 - (((analystStats wd).total_weeks : ℚ) - 4) * 5) (-100)) ∧
    (4 ≤ (analystStats wd).total_weeks →
      (analystStats wd).positive_weeks ≠ (analystStats wd).total_weeks →
      (analystStats wd).negative_weeks ≠ (analystStats wd).total_weeks →
      (analystStats wd).positive_weeks < (analystStats wd).negative_weeks →
      (analystStats wd).weeks_bonus =
        -((((analystStats wd).negative_weeks : ℚ) / (analystStats wd).total_weeks) * 50)) ∧
    (4 ≤ (analystStats wd).total_weeks →
      (analystStats wd).positive_weeks ≠ (analystStats wd).total_weeks →
      (analystStats wd).negative_weeks ≠ (analystStats wd).total_weeks →
      ¬((analystStats wd).positive_weeks < (analystStats wd).negative_weeks) →
      (analystStats wd).weeks_bonus =
        (((analystStats wd).positive_weeks : ℚ) / (analystStats wd).total_weeks) * 50) ∧
    (analystStats fourPosWeeks).weeks_bonus = 75 ∧
    (analystStats fivePosWeeks).weeks_bonus = 80 ∧
    (analystStats fourNegWeeks).weeks_bonus = -50 := by
  refine ⟨?_, ?_, ?_, ?_, ?_, ?_, ?_, ?_⟩
  · intro h
    have h' : totalWeeks wd < 4 := h
    show weeksBonus wd = 0
    rw [weeksBonus, if_neg (by omega)]
  · intro h4 hp
    have h4' : 4 ≤ totalWeeks wd := h4
    have hp' : positiveWeeks wd = totalWeeks wd := hp
    show weeksBonus wd = _
    rw [weeksBonus, if_pos h4', if_pos hp']
    rfl
  · intro h4 hp hn
    have h4' : 4 ≤ totalWeeks wd := h4
    have hp' : positiveWeeks wd ≠ totalWeeks wd := hp
    have hn' : negativeWeeks wd = totalWeeks wd := hn
    show weeksBonus wd = _
    rw [weeksBonus, if_pos h4', if_neg hp', if_pos hn']
    rfl
  · intro h4 hp hn hlt
    have h4' : 4 ≤ totalWeeks wd := h4
    have hp' : positiveWeeks wd ≠ totalWeeks wd := hp
    have hn' : negativeWeeks wd ≠ totalWeeks wd := hn
    have hlt' : positiveWeeks wd < negativeWeeks wd := hlt
    show weeksBonus wd = _
    rw [weeksBonus, if_pos h4', if_neg hp', if_neg hn', if_pos hlt']
    rfl
  · intro h4 hp hn hge
    have h4' : 4 ≤ totalWeeks wd := h4
    have hp' : positiveWeeks wd ≠ totalWeeks wd := hp
    have hn' : negativeWeeks wd ≠ totalWeeks wd := hn
    have hge' : ¬(positiveWeeks wd < negativeWeeks wd) := hge
    show weeksBonus wd = _
    rw [weeksBonus, if_pos h4', if_neg hp', if_neg hn', if_neg hge']
    rfl
  · norm_num [analystStats, weeksBonus, totalWeeks, positiveWeeks, negativeWeeks,
      weeklyReturns, sortWeeks, sSort, sInsert, weekKeyLt, listAvg, fourPosWeeks]
  · norm_num [analystStats, weeksBonus, totalWeeks, positiveWeeks, negativeWeeks,
      weeklyReturns, sortWeeks, sSort, sInsert, weekKeyLt, listAvg, fivePosWeeks]
  · norm_num [analystStats, weeksBonus, totalWeeks, positiveWeeks, negativeWeeks,
      weeklyReturns, sortWeeks, sSort, sInsert, weekKeyLt, listAvg, fourNegWeeks]

/-- C5 witness: every branch exercised at a concrete history — one week
(bonus 0), four all-positive weeks, four all-negative weeks, a 1-vs-3
mixed history, and a 3-vs-1 mixed history. -/
theorem C5_trend_bonus_witness :
    (analystStats oneWinWeek).weeks_bonus = 0 ∧
    (analystStats fourPosWeeks).weeks_bonus =
      min (75 + (((analystStats fourPosWeeks).total_weeks : ℚ) - 4) * 5) 100 ∧
    (analystStats fourNegWeeks).weeks_bonus =
      max (-50 - (((analystStats fourNegWeeks).total_weeks : ℚ) - 4) * 5) (-100) ∧
    (analystStats mixedNegWeeks).weeks_bonus =
      -((((analystStats mixedNegWeeks).negative_weeks : ℚ) /
          (analystStats mixedNegWeeks).total_weeks) * 50) ∧
    (analystStats mixedPosWeeks).weeks_bonus =
      (((analystStats mixedPosWeeks).positive_weeks : ℚ) /
          (analystStats mixedPosWeeks).total_weeks) * 50 :=
  ⟨(C5_trend_bonus oneWinWeek).1
      (by norm_num [analystStats, totalWeeks, weeklyReturns, sortWeeks, sSort, sInsert,
        listAvg, oneWinWeek]),
   (C5_trend_bonus fourPosWeeks).2.1
      (by norm_num [analystStats, totalWeeks, weeklyReturns, sortWeeks, sSort, sInsert,
        weekKeyLt, listAvg, fourPosWeeks])
      (by norm_num [analystStats, totalWeeks, positiveWeeks, weeklyReturns, sortWeeks,
        sSort, sInsert, weekKeyLt, listAvg, fourPosWeeks]),
   (C5_trend_bonus fourNegWeeks).2.2.1
      (by norm_num [analystStats, totalWeeks, weeklyReturns, sortWeeks, sSort, sInsert,
        weekKeyLt, listAvg, fourNegWeeks])
      (by norm_num [analystStats, totalWeeks, positiveWeeks, weeklyReturns, sortWeeks,
        sSort, sInsert, weekKeyLt, listAvg, fourNegWeeks])
      (by norm_num [analystStats, totalWeeks, negativeWeeks, weeklyReturns, sortWeeks,
        sSort, sInsert, weekKeyLt, listAvg, fourNegWeeks]),
   (C5_trend_bonus mixedNegWeeks).2.2.2.1
      (by norm_num [analystStats, totalWeeks, weeklyReturns, sortWeeks, sSort, sInsert,
        weekKeyLt, listAvg, mixedNegWeeks])
      (by norm_num [analystStats, totalWeeks, positiveWeeks, weeklyReturns, sortWeeks,
        sSort, sInsert, weekKeyLt, listAvg, mixedNegWeeks])
      (by norm_num [analystStats, totalWeeks, negativeWeeks, weeklyReturns, sortWeeks,
        sSort, sInsert, weekKeyLt, listAvg, mixedNegWeeks])
      (by norm_num [analystStats, totalWeeks, positiveWeeks, negativeWeeks, weeklyReturns,
        sortWeeks, sSort, sInsert, weekKeyLt, listAvg, mixedNegWeeks]),
   (C5_trend_bonus mixedPosWeeks).2.2.2.2.1
      (by norm_num [analystStats, totalWeeks, weeklyReturns, sortWeeks, sSort, sInsert,
        weekKeyLt, listAvg, mixedPosWeeks])
      (by norm_num [analystStats, totalWeeks, positiveWeeks, weeklyReturns, sortWeeks,
        sSort, sInsert, weekKeyLt, listAvg, mixedPosWeeks])
      (by norm_num [analystStats, totalWeeks, negativeWeeks, weeklyReturns, sortWeeks,
        sSort, sInsert, weekKeyLt, listAvg, mixedPosWeeks])
      (by norm_num [analystStats, totalWeeks, positiveWeeks, negativeWeeks, weeklyReturns,
        sortWeeks, sSort, sInsert, weekKeyLt, listAvg, mixedPosWeeks])⟩

/-! ### Claim C6 — confidence damping -/

/-- C6: `confidence = min(totalWeeks/2, 1.0)` and
`score = round(50 + (rawScore − 50) × confidence, 1)`; an analyst with a
single winning week of return `r` has `netValue = 1 + r/100`,
`totalReturn = r`, one counted win, and `confidence = 0.5`. -/
theorem C6_confidence_damping (wd : WeekBuckets) (r : ℚ) (hr : 0 < r) :
    (analystStats wd).confidence = min (((analystStats wd).total_weeks : ℚ) / 2) 1 ∧
    (analystStats wd).score =
      roundTo 1 (50 + ((analystStats wd).raw_score - 50) * (analystStats wd).confidence) ∧
    (analystStats [((2024, 1), [r])]).net_value = 1 + r / 100 ∧
    (analystStats [((2024, 1), [r])]).total_return = r ∧
    (analystStats [((2024, 1), [r])]).win_count = 1 ∧
    (analystStats [((2024, 1), [r])]).confidence = 1 / 2 := by
  refine ⟨rfl, rfl, ?_, ?_, ?_, ?_⟩
  · show netValue _ = _
    simp [netValue, weeklyReturns, sortWeeks, sSort, sInsert, listAvg]
  · show totalReturn _ = _
    simp [totalReturn, netValue, weeklyReturns, sortWeeks, sSort, sInsert, listAvg]
  · show winCount _ = 1
    simp [winCount, sortWeeks, sSort, sInsert, hr]
  · show confidence _ = 1 / 2
    norm_num [confidence, totalWeeks, weeklyReturns, sortWeeks, sSort, sInsert]

/-- C6 witness: instantiated at a four-week history and a winning return
of 5. -/
theorem C6_confidence_damping_witness :
    (0 : ℚ) < 5 ∧
    ((analystStats fourPosWeeks).confidence =
        min (((analystStats fourPosWeeks).total_weeks : ℚ) / 2) 1 ∧
      (analystStats fourPosWeeks).score =
        roundTo 1 (50 + ((analystStats fourPosWeeks).raw_score - 50) *
          (analystStats fourPosWeeks).confidence) ∧
      (analystStats [((2024, 1), [(5 : ℚ)])]).net_value = 1 + (5 : ℚ) / 100 ∧
      (analystStats [((2024, 1), [(5 : ℚ)])]).total_return = 5 ∧
      (analystStats [((2024, 1), [(5 : ℚ)])]).win_count = 1 ∧
      (analystStats [((2024, 1), [(5 : ℚ)])]).confidence = 1 / 2) :=
  ⟨by norm_num, C6_confidence_damping fourPosWeeks 5 (by norm_num)⟩

/-! ### Claim C8 — re-running resolve-and-merge -/

/-- A key that appears in no entry of an association list is not found by
`memAssoc`. -/
theorem memAssoc_eq_false {β : Type} (k : String) (m : List (String × β))
    (h : k ∉ m.map Prod.fst) : memAssoc k m = false := by
  induction m with
  | nil => rfl
  | cons e rest ih =>
    simp only [List.map_cons, List.mem_cons] at h
    push_neg at h
    simp [memAssoc, ih h.2, Ne.symm h.1]

/-- Phase A over entries with non-empty, pairwise fresh names appends
each entry unchanged. -/
theorem foldl_phaseAStep_fresh (stocks : List StockRec) (acc : List (String × StockRec))
    (hne : ∀ s ∈ stocks, s.stock_name ≠ "")
    (hnd : (stocks.map StockRec.stock_name).Nodup)
    (hdisj : ∀ s ∈ stocks, s.stock_name ∉ acc.map Prod.fst) :
    stocks.foldl phaseAStep acc = acc ++ stocks.map (fun s => (s.stock_name, s)) := by
  induction stocks generalizing acc with
  | nil => simp
  | cons s rest ih =>
    have hs_ne : s.stock_name ≠ "" := hne s (List.mem_cons_self s rest)
    have hmem : memAssoc s.stock_name acc = false :=
      memAssoc_eq_false _ _ (hdisj s (List.mem_cons_self s rest))
    have hstep : phaseAStep acc s = acc ++ [(s.stock_name, s)] := by
      rw [phaseAStep, if_neg hs_ne, if_neg (by simp [hmem])]
    rw [List.foldl_cons, hstep,
      ih (acc ++ [(s.stock_name, s)]) (fun t ht => hne t (List.mem_cons_of_mem s ht))
        ((List.nodup_cons.mp (by simpa using hnd)).2) ?_]
    · simp
    · intro t ht
      simp only [List.map_append, List.mem_append, List.map_cons, List.map_nil,
        List.mem_singleton]
      push_neg
      refine ⟨hdisj t (List.mem_cons_of_mem s ht), ?_⟩
      have hs_not : s.stock_name ∉ rest.map StockRec.stock_name :=
        (List.nodup_cons.mp (by simpa using hnd)).1
      intro hcontra
      exact hs_not (hcontra ▸ List.mem_map_of_mem StockRec.stock_name ht)

/-- An entry that already carries market and code is skipped by the
resolution loop. -/
theorem resolveStep_of_resolved (f : String → Option Resolved) (s : StockRec)
    (hm : s.market ≠ "") (hc : s.stock_code ≠ "") : resolveStep f s = s := by
  rw [resolveStep, if_pos ⟨hm, hc⟩]

/-- Phase B over coded entries with pairwise fresh keys appends each
entry unchanged. -/
theorem foldl_phaseBStep_fresh (stocks : List StockRec) (acc : List (String × StockRec))
    (hcoded : ∀ s ∈ stocks, s.market ≠ "" ∧ s.stock_code ≠ "")
    (hnd : (stocks.map phaseBKey).Nodup)
    (hdisj : ∀ s ∈ stocks, phaseBKey s ∉ acc.map Prod.fst) :
    stocks.foldl phaseBStep acc = acc ++ stocks.map (fun s => (phaseBKey s, s)) := by
  induction stocks generalizing acc with
  | nil => simp
  | cons s rest ih =>
    obtain ⟨hm, hc⟩ := hcoded s (List.mem_cons_self s rest)
    have hmem : memAssoc (phaseBKey s) acc = false :=
      memAssoc_eq_false _ _ (hdisj s (List.mem_cons_self s rest))
    have hstep : phaseBStep acc s = acc ++ [(phaseBKey s, s)] := by
      rw [phaseBStep]
      simp only [if_neg (show ¬(s.market = "" ∨ s.stock_code = "") by tauto),
        hmem, Bool.false_eq_true, if_false]
    rw [List.foldl_cons, hstep,
      ih (acc ++ [(phaseBKey s, s)]) (fun t ht => hcoded t (List.mem_cons_of_mem s ht))
        ((List.nodup_cons.mp (by simpa using hnd)).2) ?_]
    · simp
    · intro t ht
      simp only [List.map_append, List.mem_append, List.map_cons, List.map_nil,
        List.mem_singleton]
      push_neg
      refine ⟨hdisj t (List.mem_cons_of_mem s ht), ?_⟩
      have hs_not : phaseBKey s ∉ rest.map phaseBKey :=
        (List.nodup_cons.mp (by simpa using hnd)).1
      intro hcontra
      exact hs_not (hcontra ▸ List.mem_map_of_mem phaseBKey ht)

/-- C8, counterexample: `resolve_stock_codes` can output an all-resolved
two-entry snapshot whose entries share a canonical stock name (the
provider corrected both literal names to the same one); re-running
resolve-and-merge on that output merges the two entries in the
name-grouping phase, dropping the stock count from 2 to 1 and changing
the per-stock recommender sets. -/
theorem C8_counterexample :
    resolve_stock_codes lookupTwin twinStocks =
      [⟨"N", "SH", "600000", ["u"], none, none, none, "resolved"⟩,
       ⟨"N", "SZ", "000001", ["v"], none, none, none, "resolved"⟩] ∧
    (resolve_stock_codes lookupTwin twinStocks).all
      (fun s => !(s.market == "") && !(s.stock_code == "") && s.status == "resolved") = true ∧
    (resolve_stock_codes lookupTwin twinStocks).length = 2 ∧
    (resolve_stock_codes lookupTwin (resolve_stock_codes lookupTwin twinStocks)).length = 1 ∧
    (resolve_stock_codes lookupTwin (resolve_stock_codes lookupTwin twinStocks)).map
      StockRec.recommenders = [["u", "v"]] := by
  decide

/-- C8 (amended): re-running resolve-and-merge on an already-resolved
snapshot returns it unchanged — hence the same stock count and
recommender sets — provided its entries have non-empty, pairwise
distinct stock names and pairwise distinct `(market, code)` grouping
keys; when name correction has left two differently-coded resolved
entries with one shared name, the second run merges them instead. -/
theorem C8_resolved_fixed_point (search : String → Option Resolved)
    (stocks : List StockRec)
    (h1 : ∀ s ∈ stocks, s.stock_name ≠ "")
    (h2 : ∀ s ∈ stocks, s.market ≠ "" ∧ s.stock_code ≠ "")
    (h3 : (stocks.map StockRec.stock_name).Nodup)
    (h4 : (stocks.map phaseBKey).Nodup) :
    resolve_stock_codes search stocks = stocks := by
  have hA : phaseA stocks = stocks := by
    rw [phaseA, foldl_phaseAStep_fresh stocks [] h1 h3 (by simp)]
    simp [Function.comp_def]
  have hmap : stocks.map (resolveStep search) = stocks := by
    conv_rhs => rw [← List.map_id stocks]
    apply List.map_congr_left
    intro s hs
    exact resolveStep_of_resolved search s (h2 s hs).1 (h2 s hs).2
  rw [resolve_stock_codes, hA, hmap,
    foldl_phaseBStep_fresh stocks [] h2 h4 (by simp)]
  simp [Function.comp_def]

/-- C8 witness: the fixed-point statement applied to a concrete
two-entry resolved snapshot with distinct names and keys. -/
theorem C8_resolved_fixed_point_witness :
    (∀ s ∈ resolvedStocks, s.stock_name ≠ "") ∧
    (∀ s ∈ resolvedStocks, s.market ≠ "" ∧ s.stock_code ≠ "") ∧
    (resolvedStocks.map StockRec.stock_name).Nodup ∧
    (resolvedStocks.map phaseBKey).Nodup ∧
    resolve_stock_codes lookupTwin resolvedStocks = resolvedStocks :=
  ⟨by decide, by decide, by decide, by decide,
   C8_resolved_fixed_point lookupTwin resolvedStocks (by decide) (by decide)
     (by decide) (by decide)⟩

/-! ### Claim C9 — extraction failure leaves the store untouched -/

/-- On an unreachable service, a non-200 status, a non-zero application
error code or an unparsable content payload, `_call_gemini_api` never
returns a non-empty item list: it raises or returns `[]`. -/
theorem call_gemini_api_ok_nil (token : String) (resp : Option GeminiResponse)
    (items : List ParsedItem)
    (h : resp = none ∨ ∃ r, resp = some r ∧
        (r.status ≠ 200 ∨ r.errcode ≠ 0 ∨ r.content = none))
    (hok : call_gemini_api token resp = .ok items) : items = [] := by
  rcases h with rfl | ⟨r, rfl, hr⟩
  · by_cases ht : token = "" <;> simp [call_gemini_api, ht] at hok
  · by_cases ht : token = ""
    · simp [call_gemini_api, ht] at hok
    · rcases hr with hs | he | hc
      · simp [call_gemini_api, ht, hs] at hok
      · by_cases hst : r.status = 200
        · simp [call_gemini_api, ht, hst, he] at hok
        · simp [call_gemini_api, ht, hst] at hok
      · by_cases hst : r.status = 200
        · by_cases herr : r.errcode = 0
          · simp [call_gemini_api, ht, hst, herr, hc] at hok
            exact hok
          · simp [call_gemini_api, ht, hst, herr] at hok
        · simp [call_gemini_api, ht, hst] at hok

/-- C9: when the extraction service is unreachable, answers with a
non-success status, a non-zero application error code, or a structurally
unparsable payload, `parse_with_gemini` aborts with no partial write:
the snapshot store — including the week's stored stocks and raw source
text — is exactly what it was before the call. -/
theorem C9_no_partial_write (token : String) (resp : Option GeminiResponse)
    (y w : ℤ) (db : (ℤ × ℤ) → WeekStore)
    (h : resp = none ∨ ∃ r, resp = some r ∧
        (r.status ≠ 200 ∨ r.errcode ≠ 0 ∨ r.content = none)) :
    (parse_with_gemini token resp y w db).2 = db ∧
    ((parse_with_gemini token resp y w db).2 (y, w)).stocks = (db (y, w)).stocks ∧
    ((parse_with_gemini token resp y w db).2 (y, w)).raw_text = (db (y, w)).raw_text := by
  have hdb : (parse_with_gemini token resp y w db).2 = db := by
    by_cases hraw : (db (y, w)).raw_text = ""
    · simp [parse_with_gemini, hraw]
    · cases hcall : call_gemini_api token resp with
      | error e => simp [parse_with_gemini, hraw, hcall]
      | ok items =>
        have hnil : items = [] := call_gemini_api_ok_nil token resp items h hcall
        subst hnil
        simp [parse_with_gemini, hraw, hcall]
  exact ⟨hdb, by rw [hdb], by rw [hdb]⟩

/-- C9 witness: a 500-status response against a store holding one raw
text. -/
theorem C9_no_partial_write_witness :
    (some geminiBad = none ∨ ∃ r, some geminiBad = some r ∧
        (r.status ≠ 200 ∨ r.errcode ≠ 0 ∨ r.content = none)) ∧
    ((parse_with_gemini "tok" (some geminiBad) 2024 1 oneRawStore).2 = oneRawStore ∧
      ((parse_with_gemini "tok" (some geminiBad) 2024 1 oneRawStore).2 (2024, 1)).stocks =
        (oneRawStore (2024, 1)).stocks ∧
      ((parse_with_gemini "tok" (some geminiBad) 2024 1 oneRawStore).2 (2024, 1)).raw_text =
        (oneRawStore (2024, 1)).raw_text) :=
  ⟨Or.inr ⟨geminiBad, rfl, Or.inl (by decide)⟩,
   C9_no_partial_write "tok" (some geminiBad) 2024 1 oneRawStore
     (Or.inr ⟨geminiBad, rfl, Or.inl (by decide)⟩)⟩

/-! ### Claim C3 — provider fallback and the week window -/

/-- C3, counterexample: the primary provider answers with one bar dated
outside the Monday–Friday window, so the restricted set is empty, yet
`get_kline` reports no price data *without* retrying the secondary
provider (which here holds an in-window bar): the fallback happens only
when the primary raises, not when the window restriction is empty. -/
theorem C3_counterexample :
    primOutside 7 5 = some [⟨0, 10, 11⟩] ∧
    get_price_day_tx primOutside 7 5 = .ok [⟨0, 10, 11⟩] ∧
    ([(⟨0, 10, 11⟩ : Bar)].filter (fun b => 3 ≤ b.date ∧ b.date ≤ 7)) = [] ∧
    secInside 7 5 = some [⟨5, 10, 11⟩] ∧
    getKlineT primOutside secInside 3 7 = (none, false) := by
  refine ⟨by decide, rfl, by decide, by decide, by decide⟩

/-- C3 (amended): the secondary quote provider is retried — over the
identical `end_date`/`count` window — exactly when the primary raises or
returns no bars at all (the empty answer is converted into a raise
inside the primary wrapper); when the primary returns a non-empty bar
set whose restriction to the `[Monday, Friday]` window is empty, the
security is reported as having no price data without consulting the
secondary. -/
theorem C3_fallback_conditions (primary secondary : ℤ → ℕ → Option (List Bar))
    (start_dt end_dt : ℤ) :
    ((primary end_dt 5 = none ∨ primary end_dt 5 = some []) →
      getPriceT primary secondary end_dt 5 = (get_price_sina secondary end_dt 5, true)) ∧
    (∀ bars, primary end_dt 5 = some bars → bars ≠ [] →
      bars.filter (fun b => start_dt ≤ b.date ∧ b.date ≤ end_dt) = [] →
      getKlineT primary secondary start_dt end_dt = (none, false)) := by
  constructor
  · intro h
    rcases h with h | h <;> simp [getPriceT, get_price_day_tx, h]
  · intro bars hb hne hfilter
    cases bars with
    | nil => exact absurd rfl hne
    | cons b bs =>
      have hday : getPriceT primary secondary end_dt 5 = (.ok (b :: bs), false) := by
        simp [getPriceT, get_price_day_tx, hb]
      simp only [getKlineT, hday, List.isEmpty_cons, Bool.false_eq_true, if_false]
      rw [hfilter]
      simp

/-- C3 witness: a raising primary triggers the secondary over the same
window; an out-of-window primary answer does not. -/
theorem C3_fallback_conditions_witness :
    (primRaise 7 5 = none ∨ primRaise 7 5 = some []) ∧
    getPriceT primRaise secInside 7 5 = (get_price_sina secInside 7 5, true) ∧
    primOutside 7 5 = some [⟨0, 10, 11⟩] ∧
    ([(⟨0, 10, 11⟩ : Bar)] ≠ []) ∧
    ([(⟨0, 10, 11⟩ : Bar)].filter (fun b => 3 ≤ b.date ∧ b.date ≤ 7)) = [] ∧
    getKlineT primOutside secInside 3 7 = (none, false) :=
  ⟨Or.inl rfl,
   (C3_fallback_conditions primRaise secInside 3 7).1 (Or.inl rfl),
   rfl, by decide, by decide,
   (C3_fallback_conditions primOutside secInside 3 7).2 [⟨0, 10, 11⟩] rfl
     (by decide) (by decide)⟩

end Weekly
